import Mathlib

/-!
Verification of the Brainion backend hybrid search pipeline.

The development shallowly embeds the relevant parts of the repository:

* `src/controllers/search.controller.ts` — input validation
  (`validateSearchInput`), the title-only search (`searchByTitle`, a Prisma
  `findMany` with a case-insensitive `contains` filter), and the hybrid
  AI search (`searchWithAI`, a raw SQL query combining pgvector cosine
  similarity, `ILIKE` title matching and date matching, followed by a
  response-building stage with graceful AI degradation).
* `src/services/embedding.service.ts` — the UTF-8 byte-budget truncation
  `truncateText` used before calling the embedding provider.
* `src/controllers/note.controller.ts` — `deleteNote`.

Strings from the database are modelled as `List Char`, byte streams as
`List Nat`, numeric SQL values as `ℚ`, timestamps as `Int` (milliseconds).
The pgvector cosine-distance operator `<=>` is an external primitive and is
modelled as an arbitrary function parameter `cosDist`.  SQL result rows keep
the whole stored row (the `SELECT` projects a subset of columns; the claims
are about the underlying items).
-/

namespace Brainion

/-- A row of the `"Content"` table (prisma migration
`20250115100433_added_content_table`): `title`, `content` and `embedding`
are nullable columns, `userId` and `createdAt` are NOT NULL.  `createdAt`
is a millisecond-precision timestamp, modelled as milliseconds since the
epoch. -/
structure ContentRow where
  id : List Char
  userId : List Char
  title : Option (List Char)
  content : Option (List Char)
  embedding : Option (List ℚ)
  createdAt : Int
deriving DecidableEq

/-- Postgres `timestamp::date`: the calendar day of a millisecond
timestamp (floor division by the number of milliseconds in a day). -/
def dayOf (t : Int) : Int := t / 86400000

/-- Postgres LIKE pattern matching over characters: `%` matches any
sequence, `_` matches any single character, and backslash escapes the
following pattern character (the default Postgres escape).  First argument
is the fuel, second the pattern, third the subject string. -/
def likeMatchF : Nat → List Char → List Char → Bool
  | 0, _, _ => false
  | fuel + 1, p, s =>
    match p with
    | [] => s.isEmpty
    | c :: p =>
      if c = '%' then
        likeMatchF fuel p s ||
          (match s with
           | [] => false
           | _ :: t => likeMatchF fuel (c :: p) t)
      else if c = '_' then
        match s with
        | [] => false
        | _ :: t => likeMatchF fuel p t
      else if c = '\\' then
        match p with
        | [] => false
        | pc :: p' =>
          match s with
          | [] => false
          | a :: t => a == pc && likeMatchF fuel p' t
      else
        match s with
        | [] => false
        | a :: t => a == c && likeMatchF fuel p t

/-- LIKE matching proper: run the matcher with enough fuel (each step
consumes a pattern or subject character, so `p.length + s.length + 1`
always suffices; the fuel only makes the recursion structural). -/
def likeMatch (p s : List Char) : Bool :=
  likeMatchF (p.length + s.length + 1) p s

/-- Postgres `ILIKE`: case-insensitive LIKE (both sides lowered). -/
def ilike (pat s : List Char) : Bool :=
  likeMatch (pat.map Char.toLower) (s.map Char.toLower)

/-- The validated inputs of a hybrid search request, together with the
outcome of the two preliminary external calls: the query embedding
(`qEmbedding`, produced by `generateEmbedding`) and the optional parsed
date (`parsedDate`, produced by `chrono.parseDate`). -/
structure SearchCtx where
  query : List Char
  userId : List Char
  threshold : ℚ
  parsedDate : Option Int
  qEmbedding : List ℚ

/-- `title ILIKE '%' || query || '%'` of the raw SQL query: false when the
`title` column is NULL (SQL three-valued logic: NULL ILIKE p is NULL, which
a WHERE clause and a CASE condition both treat as not-true). -/
def titleCond (ctx : SearchCtx) (r : ContentRow) : Bool :=
  match r.title with
  | none => false
  | some t => ilike ('%' :: (ctx.query ++ ['%'])) t

/-- `${parsedDate}::date IS NOT NULL AND "createdAt"::date = ${parsedDate}::date`
of the raw SQL query. -/
def dateCond (ctx : SearchCtx) (r : ContentRow) : Bool :=
  match ctx.parsedDate with
  | none => false
  | some d => dayOf r.createdAt == dayOf d

/-- The similarity disjunct
`0.6 * (1 - (embedding <=> ${queryEmbedding}::vector)) > ${similarityThreshold}`:
when the `embedding` column is NULL the whole comparison is NULL, which the
surrounding OR treats as not-true, so the disjunct contributes nothing. -/
def simCond (cosDist : List ℚ → List ℚ → ℚ) (ctx : SearchCtx) (r : ContentRow) : Bool :=
  match r.embedding with
  | none => false
  | some e => decide ((0.6 : ℚ) * (1 - cosDist e ctx.qEmbedding) > ctx.threshold)

/-- The WHERE clause of the raw SQL query in `searchWithAI`:
`"userId" = ${userId} AND (similarity disjunct OR title ILIKE ... OR date match)`. -/
def hybridWhere (cosDist : List ℚ → List ℚ → ℚ) (ctx : SearchCtx) (r : ContentRow) : Bool :=
  r.userId == ctx.userId &&
    (simCond cosDist ctx r || titleCond ctx r || dateCond ctx r)

/-- The `total_score` SELECT expression:
`0.6*(1 - dist) + 0.3*(CASE title...) + 0.1*(CASE date...)`.  NULL
`embedding` makes the similarity term NULL and hence the whole sum NULL
(`none`). -/
def totalScore (cosDist : List ℚ → List ℚ → ℚ) (ctx : SearchCtx) (r : ContentRow) : Option ℚ :=
  match r.embedding with
  | none => none
  | some e =>
      some ((0.6 : ℚ) * (1 - cosDist e ctx.qEmbedding)
        + 0.3 * (if titleCond ctx r then 1 else 0)
        + 0.1 * (if dateCond ctx r then 1 else 0))

/-- Ordering of `ORDER BY total_score DESC` on possibly-NULL scores: in
Postgres, descending order puts NULLs first, so `none` sorts above every
numeric score. -/
def scoreGE : Option ℚ → Option ℚ → Bool
  | none, _ => true
  | some _, none => false
  | some x, some y => decide (y ≤ x)

/-- The set of result lists the raw SQL query of `searchWithAI` may return:
some permutation `full` of the qualifying rows that is sorted by
`total_score` descending (ties left unspecified by the SQL), truncated by
`LIMIT 3`.  This is a relation, not a function, because the SQL specifies
no tie-break order. -/
def HybridResult (cosDist : List ℚ → List ℚ → ℚ) (ctx : SearchCtx)
    (store : List ContentRow) (l : List ContentRow) : Prop :=
  ∃ full : List ContentRow,
    full.Perm (store.filter (hybridWhere cosDist ctx)) ∧
    full.Pairwise (fun a b => scoreGE (totalScore cosDist ctx a) (totalScore cosDist ctx b)) ∧
    l = full.take 3

/-- The Prisma `findMany` filter of `searchByTitle`:
`userId` equality plus `title: contains query, mode insensitive`
(Prisma renders this as `title ILIKE '%' || query || '%'` without escaping
LIKE metacharacters; a NULL title never matches). -/
def titleWhere (query userId : List Char) (r : ContentRow) : Bool :=
  r.userId == userId &&
    (match r.title with
     | none => false
     | some t => ilike ('%' :: (query ++ ['%'])) t)

/-- The set of result lists the `findMany` of `searchByTitle` may return: a
permutation of the matching rows sorted by `createdAt` descending
(`orderBy createdAt desc`; ties unspecified), truncated by
`take: 5`. -/
def TitleResult (query userId : List Char) (store : List ContentRow)
    (l : List ContentRow) : Prop :=
  ∃ full : List ContentRow,
    full.Perm (store.filter (titleWhere query userId)) ∧
    full.Pairwise (fun a b => b.createdAt ≤ a.createdAt) ∧
    l = full.take 5

/-- A JSON value as found in a request body field.  `jobj` stands for any
other value (object/array), which is truthy and fails every `typeof` check
used by the validator. -/
inductive JsonValue where
  | jstr (s : List Char)
  | jnum (q : ℚ)
  | jbool (b : Bool)
  | jnull
  | jobj
deriving DecidableEq

/-- JavaScript truthiness of a defined value (the empty string and the
number 0 are falsy). -/
def truthy : JsonValue → Bool
  | .jstr s => !s.isEmpty
  | .jnum q => !(q == 0)
  | .jbool b => b
  | .jnull => false
  | .jobj => true

/-- JavaScript `String.prototype.trim`: strip leading and trailing
whitespace. -/
def trimChars (l : List Char) : List Char :=
  ((l.dropWhile Char.isWhitespace).reverse.dropWhile Char.isWhitespace).reverse

/-- The four request-body fields read by `validateSearchInput`; `none`
models an absent (`undefined`) field, on which destructuring defaults
fire. -/
structure RawBody where
  query : Option JsonValue := none
  userId : Option JsonValue := none
  similarityThreshold : Option JsonValue := none
  useAI : Option JsonValue := none

/-- The validated search input (the `SearchQuery` interface of
`search.controller.ts`). -/
structure SearchQuery where
  query : List Char
  userId : List Char
  similarityThreshold : ℚ
  useAI : Bool
deriving DecidableEq

/-- Truthiness of a possibly-undefined value (`!x` in JS). -/
def truthyOpt : Option JsonValue → Bool
  | none => false
  | some v => truthy v

/-- The `typeof` string check for a possibly-undefined value. -/
def isStringVal : Option JsonValue → Bool
  | some (.jstr _) => true
  | _ => false

/-- The string payload of a field (only consulted after the `typeof`
check has passed, so the default is irrelevant). -/
def strVal : Option JsonValue → List Char
  | some (.jstr s) => s
  | _ => []

/-- `validateSearchInput` of `search.controller.ts`: destructures
`{ query, userId, similarityThreshold = 0.3, useAI = true }` (defaults
fire only on absent fields), then checks each field in order, returning the
first error, or the validated data with both strings trimmed. -/
def validateSearchInput (body : RawBody) : Except String SearchQuery :=
  let query := body.query
  let userId := body.userId
  let similarityThreshold := body.similarityThreshold.getD (.jnum 0.3)
  let useAI := body.useAI.getD (.jbool true)
  if !truthyOpt query || !isStringVal query || (trimChars (strVal query)).isEmpty then
    .error "Search query is required and must be a non-empty string"
  else if !truthyOpt userId || !isStringVal userId || (trimChars (strVal userId)).isEmpty then
    .error "User ID is required and must be a non-empty string"
  else
    match similarityThreshold with
    | .jnum t =>
        if t < 0 || t > 1 then
          .error "Similarity threshold must be a number between 0 and 1"
        else
          match useAI with
          | .jbool b =>
              .ok { query := trimChars (strVal query), userId := trimChars (strVal userId),
                    similarityThreshold := t, useAI := b }
          | _ => .error "useAI must be a boolean value"
    | _ => .error "Similarity threshold must be a number between 0 and 1"

/-- Outcome of the `model.generateContent` call of `searchWithAI`:
a response with text, a response with no usable text
(`result?.response?.candidates?.[0]?...` missing), or a thrown error. -/
inductive AIOutcome where
  | ok (text : List Char)
  | emptyResp
  | failed
deriving DecidableEq

/-- The observable parts of an HTTP JSON response built by the
controllers: the status code and the fields the claims talk about (`none`
means the field is absent from the JSON body). -/
structure Response where
  status : Nat
  error : Option String := none
  results : Option (List ContentRow) := none
  answer : Option (List Char) := none
  warning : Option String := none
  listOfNotes : Option (List ContentRow) := none
deriving DecidableEq

/-- `content.trim().length === 0`: every character is whitespace. -/
def isBlank (l : List Char) : Bool := l.all Char.isWhitespace

/-- The response-building tail of `searchWithAI` (lines 194-296), given the
rows returned by the SQL query and the outcome of the AI call: empty rows
give a 404 error; `useAI = false` returns the rows directly; otherwise the
top row's content is fed to the model, degrading gracefully on a missing
content column, an empty model response, or a thrown model error. -/
def hybridRespond (useAI : Bool) (results : List ContentRow)
    (aiOut : AIOutcome) : Response :=
  match results with
  | [] => { status := 404, error := some "No relevant content found" }
  | r0 :: _ =>
    if !useAI then
      { status := 200, results := some results }
    else
      match r0.content with
      | none =>
          { status := 200,
            answer := some "Content found but no text available for AI analysis.".toList,
            listOfNotes := some results }
      | some c =>
          if isBlank c then
            { status := 200,
              answer := some "Content found but no text available for AI analysis.".toList,
              listOfNotes := some results }
          else
            match aiOut with
            | .failed =>
                { status := 200,
                  answer := some "Found relevant content but AI response generation failed. Please see the content below.".toList,
                  listOfNotes := some results,
                  warning := some "AI generation temporarily unavailable" }
            | .emptyResp =>
                { status := 200,
                  answer := some "I found relevant content but couldn\x27t generate a specific answer to your question.".toList,
                  listOfNotes := some results }
            | .ok t =>
                { status := 200, answer := some t,
                  listOfNotes := some results }

/-- The response-building tail of `searchByTitle` (lines 98-112): a 404
error when no row matched, otherwise a 200 with the rows. -/
def titleRespond (results : List ContentRow) : Response :=
  if results.length == 0 then
    { status := 404, error := some "No matching content found" }
  else
    { status := 200, results := some results }

/-- `deleteNote` of `note.controller.ts`: reads only `req.params.id`
(no user identity), 400 when the id is missing, otherwise
`prisma.content.delete({ where: { id } })` — deletes the row with that id
whoever owns it (204), or throws when no such row exists, which the catch
turns into a 500.  Returns the response and the store after the call. -/
def deleteNote (store : List ContentRow) (noteId : Option (List Char)) :
    Response × List ContentRow :=
  match noteId with
  | none => ({ status := 400, error := some "Note ID is required" }, store)
  | some nid =>
      if nid.isEmpty then
        ({ status := 400, error := some "Note ID is required" }, store)
      else
      if store.any (fun r => r.id == nid) then
        ({ status := 204 }, store.filter (fun r => !(r.id == nid)))
      else
        ({ status := 500, error := some "Failed to delete note" }, store)

/-! ### UTF-8 truncation (`truncateText` of `embedding.service.ts`)

Text is modelled as a list of Unicode scalar values (the codepoints a
well-formed JS string encodes), bytes as natural numbers below 256. -/

/-- A Unicode scalar value: a codepoint outside the surrogate range.
`TextEncoder` emits exactly these (lone surrogates are replaced before
encoding). -/
def ScalarValue (c : Nat) : Prop :=
  c < 1114112 ∧ ¬(55296 ≤ c ∧ c ≤ 57343)

/-- UTF-8 encoding of one scalar value (what `TextEncoder.encode`
produces per character). -/
def utf8EncodeChar (c : Nat) : List Nat :=
  if c < 128 then [c]
  else if c < 2048 then [192 + c / 64, 128 + c % 64]
  else if c < 65536 then [224 + c / 4096, 128 + (c / 64) % 64, 128 + c % 64]
  else [240 + c / 262144, 128 + (c / 4096) % 64, 128 + (c / 64) % 64, 128 + c % 64]

/-- UTF-8 encoding of a text (`TextEncoder.encode`). -/
def utf8Encode (text : List Nat) : List Nat :=
  (text.map utf8EncodeChar).flatten

/-- `(b & 0xC0) === 0x80`: a UTF-8 continuation byte. -/
def isContByte (b : Nat) : Bool := Nat.land b 192 == 128

/-- `(b & 0xE0) === 0xC0`: the leading byte of a 2-byte sequence. -/
def isLead2 (b : Nat) : Bool := Nat.land b 224 == 192

/-- `(b & 0xF0) === 0xE0`: the leading byte of a 3-byte sequence. -/
def isLead3 (b : Nat) : Bool := Nat.land b 240 == 224

/-- `(b & 0xF8) === 0xF0`: the leading byte of a 4-byte sequence. -/
def isLead4 (b : Nat) : Bool := Nat.land b 248 == 240

/-- The while-loop of `truncateText`: drop trailing continuation bytes. -/
def dropTrailCont (l : List Nat) : List Nat :=
  ((l.reverse).dropWhile isContByte).reverse

/-- The final `if` of `truncateText`: when the last remaining byte starts a
multi-byte sequence, drop it too. -/
def dropTrailLead (l : List Nat) : List Nat :=
  match l.getLast? with
  | none => l
  | some b => if isLead2 b || isLead3 b || isLead4 b then l.dropLast else l

/-- `truncateText(text, maxBytes)` of `embedding.service.ts`, at the byte
level: encode, return unchanged when within budget, otherwise slice to
`maxBytes` bytes, strip trailing continuation bytes, then strip a trailing
lead byte.  (The source finally decodes these bytes back to a string with
`TextDecoder`; the theorems show the byte list is always well-formed
UTF-8, so the decoding is lossless.) -/
def truncateTextBytes (text : List Nat) (maxBytes : Nat) : List Nat :=
  let encoded := utf8Encode text
  if encoded.length ≤ maxBytes then encoded
  else dropTrailLead (dropTrailCont (encoded.take maxBytes))

/-- A byte list is well-formed UTF-8: it is the encoding of some sequence
of scalar values (so `TextDecoder` decodes it without error or
replacement). -/
def Utf8WellFormed (bytes : List Nat) : Prop :=
  ∃ cps : List Nat, (∀ c ∈ cps, ScalarValue c) ∧ utf8Encode cps = bytes

/-- `generateEmbedding` truncates its input to a 9000-byte budget before
calling the provider (`truncateText(text, 9_000)`). -/
def embeddingByteBudget : Nat := 9000

/-! ### Auxiliary specification-side notions and concrete test data -/

/-- Case-insensitive substring containment, as the specification words it:
the lowered query occurs contiguously inside the lowered title. -/
def isSubstrCI (q t : List Char) : Prop :=
  ∃ l r : List Char, t.map Char.toLower = l ++ q.map Char.toLower ++ r

/-- A degenerate cosine distance placing every vector at distance 0
(maximal similarity); used to instantiate theorems on concrete data. -/
def cosDist0 : List ℚ → List ℚ → ℚ := fun _ _ => 0

/-- A degenerate cosine distance placing every vector at distance 1
(zero similarity); used to instantiate theorems on concrete data. -/
def cosDist1 : List ℚ → List ℚ → ℚ := fun _ _ => 1

/-- A concrete stored note owned by user `A`. -/
def rowA : ContentRow :=
  { id := "a1".toList, userId := "A".toList,
    title := some "Budget Meeting Notes".toList,
    content := some "quarterly budget discussion".toList,
    embedding := some [1, 0], createdAt := 86400000 }

/-- A concrete search context for user `A` querying `budget`. -/
def ctxA : SearchCtx :=
  { query := "budget".toList, userId := "A".toList, threshold := 0.3,
    parsedDate := none, qEmbedding := [1, 0] }

/-- The older of two equally-scored rows. -/
def rowOld : ContentRow :=
  { id := "o1".toList, userId := "A".toList, title := some "plan alpha".toList,
    content := some "x".toList, embedding := some [1, 0], createdAt := 0 }

/-- The newer of two equally-scored rows. -/
def rowNew : ContentRow :=
  { id := "n1".toList, userId := "A".toList, title := some "plan beta".toList,
    content := some "x".toList, embedding := some [1, 0], createdAt := 86400000 }

/-- A search context for user `A` querying `plan`, matching both `rowOld`
and `rowNew` by title. -/
def ctxPlan : SearchCtx :=
  { query := "plan".toList, userId := "A".toList, threshold := 0.3,
    parsedDate := none, qEmbedding := [1, 0] }

/-- A row owned by user `A` whose `embedding` column is NULL but whose
title contains `budget`. -/
def rowNoEmb : ContentRow :=
  { id := "x1".toList, userId := "A".toList, title := some "budget plan".toList,
    content := some "t".toList, embedding := none, createdAt := 0 }

/-- A search context whose query is the single LIKE metacharacter `_`. -/
def ctxUnder : SearchCtx :=
  { query := "_".toList, userId := "A".toList, threshold := 0.3,
    parsedDate := none, qEmbedding := [1, 0] }

/-- A row owned by `A` whose one-character title `x` is not related to the
query `_` as a substring. -/
def rowX : ContentRow :=
  { id := "r3".toList, userId := "A".toList, title := some "x".toList,
    content := some "y".toList, embedding := some [1, 0], createdAt := 0 }

/-- A note owned by user `B`, the target of a cross-user delete. -/
def rowB : ContentRow :=
  { id := "n9".toList, userId := "B".toList, title := some "private".toList,
    content := some "secret".toList, embedding := none, createdAt := 0 }

/-- A request body that supplies `query` and `userId` but omits
`similarityThreshold` and `useAI`. -/
def bodyDefault : RawBody :=
  { query := some (.jstr "hello".toList), userId := some (.jstr "u1".toList) }

/-! ### Properties of the LIKE matcher -/

theorem likeMatchF_congr : ∀ (f1 : Nat) (f2 : Nat) (p s : List Char),
    p.length + s.length < f1 → p.length + s.length < f2 →
    likeMatchF f1 p s = likeMatchF f2 p s := by
  intro f1
  induction f1 with
  | zero => intro f2 p s h1 _; omega
  | succ f ih =>
    intro f2 p s h1 h2
    match f2, h2 with
    | g + 1, h2 =>
    match p with
    | [] => rfl
    | c :: p =>
      simp only [List.length_cons] at h1 h2
      by_cases hc : c = '%'
      · subst hc
        match s with
        | [] =>
            show (likeMatchF f p [] || false) = (likeMatchF g p [] || false)
            rw [ih g p [] (by omega) (by omega)]
        | a :: t =>
            simp only [List.length_cons] at h1 h2
            show (likeMatchF f p (a :: t) || likeMatchF f ('%' :: p) t) =
              (likeMatchF g p (a :: t) || likeMatchF g ('%' :: p) t)
            rw [ih g p (a :: t) (by simp only [List.length_cons]; omega)
                (by simp only [List.length_cons]; omega),
              ih g ('%' :: p) t (by simp only [List.length_cons]; omega)
                (by simp only [List.length_cons]; omega)]
      · by_cases hu : c = '_'
        · subst hu
          match s with
          | [] => rfl
          | a :: t =>
              simp only [List.length_cons] at h1 h2
              show likeMatchF f p t = likeMatchF g p t
              exact ih g p t (by omega) (by omega)
        · by_cases hb : c = '\\'
          · subst hb
            match p with
            | [] => rfl
            | pc :: p' =>
              match s with
              | [] => rfl
              | a :: t =>
                simp only [List.length_cons] at h1 h2
                show (a == pc && likeMatchF f p' t) = (a == pc && likeMatchF g p' t)
                rw [ih g p' t (by omega) (by omega)]
          · match s with
            | [] =>
                show likeMatchF (f + 1) (c :: p) [] = likeMatchF (g + 1) (c :: p) []
                simp only [likeMatchF, if_neg hc, if_neg hu, if_neg hb]
            | a :: t =>
                simp only [List.length_cons] at h1 h2
                show likeMatchF (f + 1) (c :: p) (a :: t) = likeMatchF (g + 1) (c :: p) (a :: t)
                simp only [likeMatchF, if_neg hc, if_neg hu, if_neg hb]
                show (a == c && likeMatchF f p t) = (a == c && likeMatchF g p t)
                rw [ih g p t (by omega) (by omega)]

theorem likeMatch_nilPat (s : List Char) : likeMatch [] s = s.isEmpty := rfl

theorem likeMatch_percent_nilStr (p : List Char) :
    likeMatch ('%' :: p) [] = likeMatch p [] := by
  show (likeMatchF (p.length + 1 + 0) p [] || false) = likeMatchF (p.length + 0 + 1) p []
  rw [likeMatchF_congr (p.length + 1 + 0) (p.length + 0 + 1) p [] (by simp) (by simp)]
  simp

theorem likeMatch_percent_cons (p : List Char) (a : Char) (t : List Char) :
    likeMatch ('%' :: p) (a :: t) = (likeMatch p (a :: t) || likeMatch ('%' :: p) t) := by
  show (likeMatchF (p.length + 1 + (t.length + 1)) p (a :: t) ||
      likeMatchF (p.length + 1 + (t.length + 1)) ('%' :: p) t) = _
  rw [likeMatchF_congr (p.length + 1 + (t.length + 1)) (p.length + (t.length + 1) + 1) p (a :: t)
      (by simp only [List.length_cons]; omega) (by simp only [List.length_cons]; omega),
    likeMatchF_congr (p.length + 1 + (t.length + 1)) (p.length + 1 + t.length + 1) ('%' :: p) t
      (by simp only [List.length_cons]; omega) (by simp only [List.length_cons]; omega)]
  rfl

theorem likeMatch_plain_nilStr (c : Char) (p : List Char) (h : ¬ c = '%') :
    likeMatch (c :: p) [] = false := by
  show likeMatchF (p.length + 1 + 0 + 1) (c :: p) [] = false
  by_cases hu : c = '_'
  · subst hu; rfl
  · by_cases hb : c = '\\'
    · subst hb
      match p with
      | [] => rfl
      | _ :: _ => rfl
    · simp only [likeMatchF, if_neg h, if_neg hu, if_neg hb]

theorem likeMatch_plain_cons (c : Char) (p : List Char) (a : Char) (t : List Char)
    (h1 : ¬ c = '%') (h2 : ¬ c = '_') (h3 : ¬ c = '\\') :
    likeMatch (c :: p) (a :: t) = (a == c && likeMatch p t) := by
  show likeMatchF (p.length + 1 + (t.length + 1) + 1) (c :: p) (a :: t) = _
  simp only [likeMatchF, if_neg h1, if_neg h2, if_neg h3]
  show (a == c && likeMatchF (p.length + 1 + (t.length + 1)) p t) = _
  rw [likeMatchF_congr (p.length + 1 + (t.length + 1)) (p.length + t.length + 1) p t
    (by omega) (by omega)]
  rfl

theorem likeMatch_percent_univ : ∀ s : List Char, likeMatch ['%'] s = true := by
  intro s
  induction s with
  | nil => rw [likeMatch_percent_nilStr]; rfl
  | cons a t ih => rw [likeMatch_percent_cons, ih]; simp

theorem likeMatch_percent_iff (p : List Char) (s : List Char) :
    likeMatch ('%' :: p) s = true ↔
      ∃ s1 s2 : List Char, s = s1 ++ s2 ∧ likeMatch p s2 = true := by
  induction s with
  | nil =>
      rw [likeMatch_percent_nilStr]
      constructor
      · intro h; exact ⟨[], [], rfl, h⟩
      · rintro ⟨s1, s2, he, h⟩
        obtain ⟨h1, h2⟩ := List.append_eq_nil.mp he.symm
        subst h1; subst h2; exact h
  | cons a t ih =>
      rw [likeMatch_percent_cons]
      constructor
      · intro h
        rw [Bool.or_eq_true] at h
        rcases h with h | h
        · exact ⟨[], a :: t, rfl, h⟩
        · obtain ⟨s1, s2, he, hm⟩ := ih.mp h
          exact ⟨a :: s1, s2, by rw [he]; rfl, hm⟩
      · rintro ⟨s1, s2, he, hm⟩
        rw [Bool.or_eq_true]
        cases s1 with
        | nil =>
            simp only [List.nil_append] at he
            subst he; exact Or.inl hm
        | cons b s1 =>
            simp only [List.cons_append, List.cons.injEq] at he
            exact Or.inr (ih.mpr ⟨s1, s2, he.2, hm⟩)

theorem likeMatch_plain_iff : ∀ (q : List Char),
    (∀ ch ∈ q, ch ≠ '%' ∧ ch ≠ '_' ∧ ch ≠ '\\') →
    ∀ s : List Char, likeMatch (q ++ ['%']) s = true ↔ ∃ rest, s = q ++ rest := by
  intro q
  induction q with
  | nil =>
      intro _ s
      simp only [List.nil_append]
      constructor
      · intro _; exact ⟨s, rfl⟩
      · intro _; exact likeMatch_percent_univ s
  | cons c q ih =>
      intro hq s
      have hc := hq c (List.mem_cons_self c q)
      have hq2 : ∀ ch ∈ q, ch ≠ '%' ∧ ch ≠ '_' ∧ ch ≠ '\\' :=
        fun ch hch => hq ch (List.mem_cons_of_mem c hch)
      cases s with
      | nil =>
          rw [show ((c :: q) ++ ['%']) = c :: (q ++ ['%']) from rfl,
            likeMatch_plain_nilStr c (q ++ ['%']) hc.1]
          constructor
          · intro h; cases h
          · rintro ⟨rest, he⟩; cases he
      | cons a t =>
          rw [show ((c :: q) ++ ['%']) = c :: (q ++ ['%']) from rfl,
            likeMatch_plain_cons c (q ++ ['%']) a t hc.1 hc.2.1 hc.2.2]
          constructor
          · intro h
            rw [Bool.and_eq_true] at h
            obtain ⟨hab, hm⟩ := h
            obtain ⟨rest, hrest⟩ := (ih hq2 t).mp hm
            refine ⟨rest, ?_⟩
            rw [beq_iff_eq] at hab
            rw [hab, hrest]
            rfl
          · rintro ⟨rest, he⟩
            simp only [List.cons_append, List.cons.injEq] at he
            rw [Bool.and_eq_true]
            exact ⟨beq_iff_eq.mpr he.1, (ih hq2 t).mpr ⟨rest, he.2⟩⟩

theorem toLower_ne_meta (c : Char) (h : c ≠ '%' ∧ c ≠ '_' ∧ c ≠ '\\') :
    Char.toLower c ≠ '%' ∧ Char.toLower c ≠ '_' ∧ Char.toLower c ≠ '\\' := by
  unfold Char.toLower
  by_cases hc : c.toNat ≥ 65 ∧ c.toNat ≤ 90
  · rw [if_pos hc]
    have hv : (c.toNat + 32).isValidChar := Or.inl (by omega)
    have ht : (Char.ofNat (c.toNat + 32)).toNat = c.toNat + 32 := by
      rw [Char.ofNat, dif_pos hv]; rfl
    refine ⟨?_, ?_, ?_⟩ <;> intro he <;> rw [he] at ht
    · rw [show Char.toNat '%' = 37 from rfl] at ht; omega
    · rw [show Char.toNat '_' = 95 from rfl] at ht; omega
    · rw [show Char.toNat '\\' = 92 from rfl] at ht; omega
  · rw [if_neg hc]; exact h

theorem ilike_substr_iff (q t : List Char)
    (hq : ∀ ch ∈ q, ch ≠ '%' ∧ ch ≠ '_' ∧ ch ≠ '\\') :
    ilike ('%' :: (q ++ ['%'])) t = true ↔ isSubstrCI q t := by
  unfold ilike isSubstrCI
  have hpct : Char.toLower '%' = '%' := rfl
  have hmap : ('%' :: (q ++ ['%'])).map Char.toLower =
      '%' :: (q.map Char.toLower ++ ['%']) := by
    simp only [List.map_cons, List.map_append, hpct]
    rfl
  rw [hmap]
  have hq2 : ∀ ch ∈ q.map Char.toLower, ch ≠ '%' ∧ ch ≠ '_' ∧ ch ≠ '\\' := by
    intro ch hch
    rw [List.mem_map] at hch
    obtain ⟨c, hc, hlc⟩ := hch
    rw [← hlc]
    exact toLower_ne_meta c (hq c hc)
  rw [likeMatch_percent_iff]
  constructor
  · rintro ⟨s1, s2, he, hm⟩
    obtain ⟨rest, hrest⟩ := (likeMatch_plain_iff _ hq2 s2).mp hm
    refine ⟨s1, rest, ?_⟩
    rw [he, hrest, List.append_assoc]
  · rintro ⟨l, r, he⟩
    refine ⟨l, q.map Char.toLower ++ r, ?_, ?_⟩
    · rw [he, List.append_assoc]
    · exact (likeMatch_plain_iff _ hq2 _).mpr ⟨r, rfl⟩

/-! ### Membership in result sets -/

theorem mem_of_hybridResult {cosDist : List ℚ → List ℚ → ℚ} {ctx : SearchCtx}
    {store l : List ContentRow} {r : ContentRow}
    (hres : HybridResult cosDist ctx store l) (hr : r ∈ l) :
    r ∈ store ∧ hybridWhere cosDist ctx r = true := by
  obtain ⟨full, hperm, -, hl⟩ := hres
  subst hl
  have h2 : r ∈ full := List.mem_of_mem_take hr
  have h3 := hperm.mem_iff.mp h2
  rw [List.mem_filter] at h3
  exact h3

theorem mem_of_titleResult {query userId : List Char}
    {store l : List ContentRow} {r : ContentRow}
    (hres : TitleResult query userId store l) (hr : r ∈ l) :
    r ∈ store ∧ titleWhere query userId r = true := by
  obtain ⟨full, hperm, -, hl⟩ := hres
  subst hl
  have h2 : r ∈ full := List.mem_of_mem_take hr
  have h3 := hperm.mem_iff.mp h2
  rw [List.mem_filter] at h3
  exact h3

theorem hybridResult_singleton (cosDist : List ℚ → List ℚ → ℚ) (ctx : SearchCtx)
    (r : ContentRow) (h : List.filter (hybridWhere cosDist ctx) [r] = [r]) :
    HybridResult cosDist ctx [r] [r] := by
  refine ⟨[r], ?_, ?_, rfl⟩
  · rw [h]
  · simp

theorem titleResult_singleton (query userId : List Char)
    (r : ContentRow) (h : List.filter (titleWhere query userId) [r] = [r]) :
    TitleResult query userId [r] [r] := by
  refine ⟨[r], ?_, ?_, rfl⟩
  · rw [h]
  · simp

/-- Helper: a weighted CASE score equals 1 exactly when its condition is
true. -/
theorem ite_one_eq_one (b : Bool) : ((if b then (1 : ℚ) else 0) = 1) ↔ b = true := by
  cases b <;> simp

/-! ### Claims about the search pipeline -/

/-- Claim C1: ownership isolation — every row in a result list of the
`searchWithAI` hybrid query or of the `searchByTitle` query carries the
`userId` of the requesting owner, so a search issued with owner identifier
A never returns a row belonging to a distinct owner B. -/
theorem ownership_isolation :
    (∀ (cosDist : List ℚ → List ℚ → ℚ) (ctx : SearchCtx) (store l : List ContentRow)
        (r : ContentRow), HybridResult cosDist ctx store l → r ∈ l →
        r.userId = ctx.userId) ∧
    (∀ (query userId : List Char) (store l : List ContentRow) (r : ContentRow),
        TitleResult query userId store l → r ∈ l → r.userId = userId) := by
  constructor
  · intro cosDist ctx store l r hres hr
    have h := (mem_of_hybridResult hres hr).2
    simp only [hybridWhere, Bool.and_eq_true, beq_iff_eq] at h
    exact h.1
  · intro query userId store l r hres hr
    have h := (mem_of_titleResult hres hr).2
    simp only [titleWhere, Bool.and_eq_true, beq_iff_eq] at h
    exact h.1

/-- Helper: filtering a singleton whose element passes the predicate keeps
it. -/
theorem filter_singleton_of_true {α : Type} (p : α → Bool) (a : α) (h : p a = true) :
    List.filter p [a] = [a] := by
  simp [List.filter_cons, h]

/-- Helper: the concrete row `rowA` passes the hybrid WHERE clause of
`ctxA` under `cosDist0` (its title matches the query). -/
theorem hybridWhere_rowA : hybridWhere cosDist0 ctxA rowA = true := by
  have ht : titleCond ctxA rowA = true := by decide
  unfold hybridWhere
  rw [ht]
  simp only [Bool.or_true, Bool.true_or, Bool.and_true]
  decide

/-- Witness for C1: a concrete one-row store for owner A, on which both
search paths return the row and the theorem yields its ownership. -/
theorem ownership_isolation_witness :
    HybridResult cosDist0 ctxA [rowA] [rowA] ∧
    TitleResult ctxA.query ctxA.userId [rowA] [rowA] ∧
    rowA.userId = ctxA.userId := by
  have h1 : HybridResult cosDist0 ctxA [rowA] [rowA] :=
    hybridResult_singleton cosDist0 ctxA rowA
      (filter_singleton_of_true _ _ hybridWhere_rowA)
  have h2 : TitleResult ctxA.query ctxA.userId [rowA] [rowA] :=
    titleResult_singleton ctxA.query ctxA.userId rowA
      (filter_singleton_of_true _ _ (by decide))
  refine ⟨h1, h2, ?_⟩
  exact ownership_isolation.1 cosDist0 ctxA [rowA] [rowA] rowA h1 (List.mem_singleton.mpr rfl)

/-- Claim C2: union inclusion rule — for a row of the requesting owner with
a non-NULL embedding, the WHERE clause of the hybrid query holds exactly
when `0.6 * similarityScore > similarityThreshold` OR the title CASE score
is 1 OR the date CASE score is 1 (a disjunction); in particular a row with
title score 1 and similarity score 0 qualifies for every threshold up to
0.9. -/
theorem union_inclusion :
    ∀ (cosDist : List ℚ → List ℚ → ℚ) (ctx : SearchCtx) (r : ContentRow) (e : List ℚ),
      r.userId = ctx.userId → r.embedding = some e →
      (hybridWhere cosDist ctx r = true ↔
        ((0.6 : ℚ) * (1 - cosDist e ctx.qEmbedding) > ctx.threshold ∨
          (if titleCond ctx r then (1 : ℚ) else 0) = 1 ∨
          (if dateCond ctx r then (1 : ℚ) else 0) = 1)) ∧
      (ctx.threshold ≤ 0.9 →
        (if titleCond ctx r then (1 : ℚ) else 0) = 1 →
        1 - cosDist e ctx.qEmbedding = 0 →
        hybridWhere cosDist ctx r = true) := by
  intro cosDist ctx r e huid he
  obtain ⟨rid, ruid, rtitle, rcontent, remb, rcreated⟩ := r
  simp only at huid he
  subst he
  subst huid
  constructor
  · simp only [hybridWhere, simCond, Bool.and_eq_true, Bool.or_eq_true, beq_iff_eq,
      decide_eq_true_eq, ite_one_eq_one, true_and, or_assoc]
  · intro _ ht _
    rw [ite_one_eq_one] at ht
    simp only [hybridWhere, Bool.and_eq_true, Bool.or_eq_true, beq_iff_eq, true_and]
    exact Or.inl (Or.inr ht)

/-- Witness for C2: with the all-ones distance (similarity 0) and a
threshold of 0.9, the title-matching row of owner A still qualifies. -/
theorem union_inclusion_witness :
    hybridWhere cosDist1
      { query := "budget".toList, userId := "A".toList, threshold := 0.9,
        parsedDate := none, qEmbedding := [1, 0] } rowA = true := by
  refine (union_inclusion cosDist1
    { query := "budget".toList, userId := "A".toList, threshold := 0.9,
      parsedDate := none, qEmbedding := [1, 0] } rowA [1, 0]
    (by decide) (by decide)).2 (by norm_num) ?_ (by norm_num [cosDist1])
  rw [ite_one_eq_one]
  decide

/-- Counterexample to claim C4: with zero qualifying items both search
paths respond 404 with an `error` field — not a successful empty result.
(`searchByTitle` line 98: `res.status(404)`, `searchWithAI` line 196:
`res.status(404)`.) -/
theorem empty_result_404_cex :
    (titleRespond []).status = 404 ∧ (titleRespond []).error ≠ none ∧
    (hybridRespond true [] AIOutcome.failed).status = 404 ∧
    (hybridRespond true [] AIOutcome.failed).error ≠ none := by
  refine ⟨rfl, ?_, rfl, ?_⟩ <;> simp [titleRespond, hybridRespond]

/-- Amended claim C4: when zero items qualify, both search operations
return a 404 error response carrying an `error` message (the no-match
outcome IS reported as a 404-style failure, never as a successful empty
result). -/
theorem empty_result_is_404 :
    ∀ (useAI : Bool) (aiOut : AIOutcome),
      (hybridRespond useAI [] aiOut).status = 404 ∧
      (hybridRespond useAI [] aiOut).error = some "No relevant content found" ∧
      (titleRespond []).status = 404 ∧
      (titleRespond []).error = some "No matching content found" := by
  intro useAI aiOut
  exact ⟨rfl, rfl, rfl, rfl⟩

/-- Claim C6 is right and the code wrong: `deleteNote` reads only
`req.params.id`, never any requester identity, and
`prisma.content.delete({ where: { id } })` destroys the row whoever owns
it.  Here a delete request for id `n9` — issued without any ownership
credential, e.g. by user A — removes user B's note from the store and
reports 204. -/
theorem delete_ignores_ownership :
    (deleteNote [rowB] (some "n9".toList)).1.status = 204 ∧
    (deleteNote [rowB] (some "n9".toList)).2 = [] ∧
    rowB.userId = "B".toList := by
  refine ⟨rfl, ?_, rfl⟩
  decide

/-- Claim C7: graceful AI degradation — with `useAI = true`, a non-empty
result list whose top row has usable content, and a failing
`generateContent` call, `searchWithAI` still responds 200 with the ranked
rows in `listOfNotes` and a `warning` field, never a 500. -/
theorem ai_degradation :
    ∀ (r0 : ContentRow) (rest : List ContentRow) (c : List Char),
      r0.content = some c → isBlank c = false →
      (hybridRespond true (r0 :: rest) AIOutcome.failed).status = 200 ∧
      (hybridRespond true (r0 :: rest) AIOutcome.failed).warning =
        some "AI generation temporarily unavailable" ∧
      (hybridRespond true (r0 :: rest) AIOutcome.failed).listOfNotes =
        some (r0 :: rest) := by
  intro r0 rest c hc hb
  obtain ⟨rid, ruid, rtitle, rcontent, remb, rcreated⟩ := r0
  simp only at hc
  subst hc
  simp [hybridRespond, hb]

/-- Witness for C7: the concrete row `rowA` with its non-blank content. -/
theorem ai_degradation_witness :
    rowA.content = some "quarterly budget discussion".toList ∧
    isBlank "quarterly budget discussion".toList = false ∧
    (hybridRespond true [rowA] AIOutcome.failed).status = 200 ∧
    (hybridRespond true [rowA] AIOutcome.failed).warning =
      some "AI generation temporarily unavailable" := by
  have h := ai_degradation rowA [] "quarterly budget discussion".toList rfl (by decide)
  exact ⟨rfl, by decide, h.1, h.2.1⟩

/-- Counterexample to claim C9: the raw SQL query has no
`embedding IS NOT NULL` filter, so a stored row with a NULL embedding whose
title contains the query still qualifies (in SQL three-valued logic
`NULL OR TRUE` is `TRUE`) and is returned by the hybrid search. -/
theorem null_embedding_returned_cex :
    HybridResult cosDist0 ctxA [rowNoEmb] [rowNoEmb] ∧
    rowNoEmb.embedding = none ∧ rowNoEmb ∈ [rowNoEmb] := by
  refine ⟨hybridResult_singleton cosDist0 ctxA rowNoEmb
    (filter_singleton_of_true _ _ (by decide)), rfl, List.mem_singleton.mpr rfl⟩

/-- Amended claim C9: a NULL embedding only disables the similarity path —
a null-embedding row returned by the hybrid search must have qualified via
the title match or the date match; rows with NULL embedding that match
neither never appear. -/
theorem null_embedding_needs_lexical :
    ∀ (cosDist : List ℚ → List ℚ → ℚ) (ctx : SearchCtx) (store l : List ContentRow)
      (r : ContentRow), HybridResult cosDist ctx store l → r ∈ l →
      r.embedding = none →
      (titleCond ctx r = true ∨ dateCond ctx r = true) := by
  intro cosDist ctx store l r hres hr he
  have h := (mem_of_hybridResult hres hr).2
  obtain ⟨rid, ruid, rtitle, rcontent, remb, rcreated⟩ := r
  simp only at he
  subst he
  simp only [hybridWhere, Bool.and_eq_true, Bool.or_eq_true] at h
  rcases h.2 with (hs | ht) | hd
  · simp [simCond] at hs
  · exact Or.inl ht
  · exact Or.inr hd

/-- Witness for amended C9: the concrete null-embedding row is returned
and indeed matched by title. -/
theorem null_embedding_needs_lexical_witness :
    HybridResult cosDist0 ctxA [rowNoEmb] [rowNoEmb] ∧
    rowNoEmb.embedding = none ∧
    (titleCond ctxA rowNoEmb = true ∨ dateCond ctxA rowNoEmb = true) := by
  have h1 : HybridResult cosDist0 ctxA [rowNoEmb] [rowNoEmb] :=
    hybridResult_singleton cosDist0 ctxA rowNoEmb
      (filter_singleton_of_true _ _ (by decide))
  exact ⟨h1, rfl, null_embedding_needs_lexical cosDist0 ctxA [rowNoEmb] [rowNoEmb]
    rowNoEmb h1 (List.mem_singleton.mpr rfl) rfl⟩

/-- Helper: `scoreGE` is reflexive. -/
theorem scoreGE_refl (a : Option ℚ) : scoreGE a a = true := by
  cases a with
  | none => rfl
  | some x => simp [scoreGE]

/-- Helper: `rowOld` passes the hybrid WHERE clause of `ctxPlan`. -/
theorem hybridWhere_rowOld : hybridWhere cosDist0 ctxPlan rowOld = true := by
  have ht : titleCond ctxPlan rowOld = true := by decide
  unfold hybridWhere
  rw [ht]
  simp only [Bool.or_true, Bool.true_or, Bool.and_true]
  decide

/-- Helper: `rowNew` passes the hybrid WHERE clause of `ctxPlan`. -/
theorem hybridWhere_rowNew : hybridWhere cosDist0 ctxPlan rowNew = true := by
  have ht : titleCond ctxPlan rowNew = true := by decide
  unfold hybridWhere
  rw [ht]
  simp only [Bool.or_true, Bool.true_or, Bool.and_true]
  decide

/-- Helper: both equally-scored rows survive the filter, in store order. -/
theorem filter_pair_eq :
    List.filter (hybridWhere cosDist0 ctxPlan) [rowOld, rowNew] = [rowOld, rowNew] := by
  simp [List.filter_cons, hybridWhere_rowOld, hybridWhere_rowNew]

/-- Helper: the two rows have the same `total_score` (same embedding, both
title-matched, neither date-matched). -/
theorem totalScore_old_eq_new :
    totalScore cosDist0 ctxPlan rowOld = totalScore cosDist0 ctxPlan rowNew := rfl

/-- Helper: the SQL result relation admits the older-first order for the
two equally-scored rows. -/
theorem hybridResult_pair :
    HybridResult cosDist0 ctxPlan [rowOld, rowNew] [rowOld, rowNew] := by
  refine ⟨[rowOld, rowNew], ?_, ?_, rfl⟩
  · rw [filter_pair_eq]
  · refine List.pairwise_cons.mpr ⟨?_, by simp⟩
    intro b hb
    rw [List.mem_singleton] at hb
    subst hb
    rw [totalScore_old_eq_new]
    exact scoreGE_refl _

/-- Helper: the SQL result relation equally admits the newer-first order. -/
theorem hybridResult_pair_swapped :
    HybridResult cosDist0 ctxPlan [rowOld, rowNew] [rowNew, rowOld] := by
  refine ⟨[rowNew, rowOld], ?_, ?_, rfl⟩
  · rw [filter_pair_eq]
    exact List.Perm.swap rowOld rowNew []
  · refine List.pairwise_cons.mpr ⟨?_, by simp⟩
    intro b hb
    rw [List.mem_singleton] at hb
    subst hb
    rw [totalScore_old_eq_new]
    exact scoreGE_refl _

/-- Counterexample to claim C5: on a store with two rows of identical
`total_score` and distinct `createdAt`, the SQL result relation admits both
the older-first and the newer-first order — `ORDER BY total_score DESC`
alone fixes no tie-break, so "the more recent createdAt is returned first"
is not guaranteed and the order is not deterministic. -/
theorem tiebreak_cex :
    HybridResult cosDist0 ctxPlan [rowOld, rowNew] [rowOld, rowNew] ∧
    HybridResult cosDist0 ctxPlan [rowOld, rowNew] [rowNew, rowOld] ∧
    totalScore cosDist0 ctxPlan rowOld = totalScore cosDist0 ctxPlan rowNew ∧
    rowOld.createdAt < rowNew.createdAt :=
  ⟨hybridResult_pair, hybridResult_pair_swapped, totalScore_old_eq_new, by decide⟩

/-- Amended claim C5: hybrid results are sorted by `total_score`
descending (with SQL NULL scores first); the relative order of rows with
equal `total_score` is left unspecified by the query, so no
`createdAt`-based tie-break is guaranteed. -/
theorem hybrid_sorted_by_total_score :
    ∀ (cosDist : List ℚ → List ℚ → ℚ) (ctx : SearchCtx) (store l : List ContentRow),
      HybridResult cosDist ctx store l →
      l.Pairwise (fun a b =>
        scoreGE (totalScore cosDist ctx a) (totalScore cosDist ctx b) = true) := by
  intro cosDist ctx store l hres
  obtain ⟨full, -, hpair, hl⟩ := hres
  subst hl
  exact hpair.sublist (List.take_sublist 3 full)

/-- Witness for amended C5: the two-row store instance, ordered
older-first, is sorted by score. -/
theorem hybrid_sorted_by_total_score_witness :
    HybridResult cosDist0 ctxPlan [rowOld, rowNew] [rowOld, rowNew] ∧
    List.Pairwise (fun a b =>
      scoreGE (totalScore cosDist0 ctxPlan a) (totalScore cosDist0 ctxPlan b) = true)
      [rowOld, rowNew] :=
  ⟨hybridResult_pair, hybrid_sorted_by_total_score cosDist0 ctxPlan
    [rowOld, rowNew] [rowOld, rowNew] hybridResult_pair⟩

/-- Helper: `rowX` passes the hybrid WHERE clause of `ctxUnder` (the
wildcard `_` in the query matches its one-letter title). -/
theorem hybridWhere_rowX : hybridWhere cosDist0 ctxUnder rowX = true := by
  have ht : titleCond ctxUnder rowX = true := by decide
  unfold hybridWhere
  rw [ht]
  simp only [Bool.or_true, Bool.true_or, Bool.and_true]
  decide

/-- Counterexample to claim C3: with the query `_` (a LIKE wildcard) the
returned row titled `x` gets title CASE score 1 — `ILIKE` pattern
matching — although `_` is not a case-insensitive substring of `x`, so
"titleScore is 1 exactly when the query is a substring of the title" fails. -/
theorem titleScore_not_substring_cex :
    HybridResult cosDist0 ctxUnder [rowX] [rowX] ∧
    titleCond ctxUnder rowX = true ∧
    rowX.title = some "x".toList ∧
    ctxUnder.query = "_".toList ∧
    ¬ isSubstrCI "_".toList "x".toList := by
  refine ⟨hybridResult_singleton cosDist0 ctxUnder rowX
      (filter_singleton_of_true _ _ hybridWhere_rowX), by decide, rfl, rfl, ?_⟩
  rintro ⟨l, r, h⟩
  have e1 : "x".toList.map Char.toLower = ['x'] := by decide
  have e2 : "_".toList.map Char.toLower = ['_'] := by decide
  rw [e1, e2] at h
  have hm : ('_' : Char) ∈ (['x'] : List Char) := by
    rw [h]
    simp
  rw [List.mem_singleton] at hm
  exact absurd hm (by decide)

/-- Amended claim C3: for every returned row with a non-NULL embedding,
`total_score = 0.6·(1 − cosineDistance) + 0.3·titleScore + 0.1·dateScore`,
where `titleScore` is 1 exactly when the title matches the SQL pattern
`'%' || query || '%'` under case-insensitive LIKE semantics — which
coincides with case-insensitive substring containment whenever the query
contains none of the LIKE metacharacters `%`, `_`, `\` — and `dateScore`
is 1 exactly when a parsed date exists and its calendar day equals the
row's `createdAt` calendar day (0 when no date was parsed or the title is
NULL, respectively). -/
theorem total_score_formula :
    ∀ (cosDist : List ℚ → List ℚ → ℚ) (ctx : SearchCtx) (store l : List ContentRow)
      (r : ContentRow) (e : List ℚ),
      HybridResult cosDist ctx store l → r ∈ l → r.embedding = some e →
      (totalScore cosDist ctx r =
        some ((0.6 : ℚ) * (1 - cosDist e ctx.qEmbedding)
          + 0.3 * (if titleCond ctx r then 1 else 0)
          + 0.1 * (if dateCond ctx r then 1 else 0))) ∧
      (∀ t, r.title = some t →
        ((if titleCond ctx r then (1 : ℚ) else 0) = 1 ↔
          ilike ('%' :: (ctx.query ++ ['%'])) t = true)) ∧
      ((∀ ch ∈ ctx.query, ch ≠ '%' ∧ ch ≠ '_' ∧ ch ≠ '\\') →
        ∀ t, r.title = some t →
        ((if titleCond ctx r then (1 : ℚ) else 0) = 1 ↔ isSubstrCI ctx.query t)) ∧
      (r.title = none → (if titleCond ctx r then (1 : ℚ) else 0) = 0) ∧
      (∀ d, ctx.parsedDate = some d →
        ((if dateCond ctx r then (1 : ℚ) else 0) = 1 ↔ dayOf r.createdAt = dayOf d)) ∧
      (ctx.parsedDate = none → (if dateCond ctx r then (1 : ℚ) else 0) = 0) := by
  intro cosDist ctx store l r e hres hr he
  obtain ⟨rid, ruid, rtitle, rcontent, remb, rcreated⟩ := r
  obtain ⟨cq, cu, cth, cpd, cqe⟩ := ctx
  simp only at he
  subst he
  refine ⟨rfl, ?_, ?_, ?_, ?_, ?_⟩
  · intro t ht
    simp only at ht
    subst ht
    rw [ite_one_eq_one]
    exact Iff.rfl
  · intro hq t ht
    simp only at ht
    subst ht
    rw [ite_one_eq_one]
    exact ilike_substr_iff cq t hq
  · intro ht
    simp only at ht
    subst ht
    rfl
  · intro d hd
    simp only at hd
    subst hd
    rw [ite_one_eq_one]
    exact beq_iff_eq
  · intro hd
    simp only at hd
    subst hd
    rfl

/-- Witness for amended C3: the concrete returned row `rowA`, whose query
`budget` is metacharacter-free, with its score decomposition and the
substring characterization of the title score. -/
theorem total_score_formula_witness :
    HybridResult cosDist0 ctxA [rowA] [rowA] ∧
    totalScore cosDist0 ctxA rowA =
      some ((0.6 : ℚ) * (1 - cosDist0 [1, 0] ctxA.qEmbedding)
        + 0.3 * (if titleCond ctxA rowA then 1 else 0)
        + 0.1 * (if dateCond ctxA rowA then 1 else 0)) ∧
    ((if titleCond ctxA rowA then (1 : ℚ) else 0) = 1 ↔
      isSubstrCI ctxA.query "Budget Meeting Notes".toList) := by
  have h1 : HybridResult cosDist0 ctxA [rowA] [rowA] :=
    hybridResult_singleton cosDist0 ctxA rowA
      (filter_singleton_of_true _ _ hybridWhere_rowA)
  have h2 := total_score_formula cosDist0 ctxA [rowA] [rowA] rowA [1, 0] h1
    (List.mem_singleton.mpr rfl) rfl
  exact ⟨h1, h2.1, h2.2.2.1 (by decide) "Budget Meeting Notes".toList rfl⟩

/-- Claim C10: when the request body omits `useAI`, destructuring applies
the default `useAI = true`, so a validated request carries `useAI = true`
and — with a non-empty result whose top row has usable content and a
successful model call — the 200 response carries the generated `answer`. -/
theorem useAI_default :
    ∀ (body : RawBody) (d : SearchQuery), body.useAI = none →
      validateSearchInput body = Except.ok d →
      d.useAI = true ∧
      (∀ (r0 : ContentRow) (rest : List ContentRow) (c t : List Char),
        r0.content = some c → isBlank c = false →
        (hybridRespond d.useAI (r0 :: rest) (AIOutcome.ok t)).status = 200 ∧
        (hybridRespond d.useAI (r0 :: rest) (AIOutcome.ok t)).answer = some t) := by
  intro body d hAI hok
  have hd : d.useAI = true := by
    simp only [validateSearchInput, hAI, Option.getD] at hok
    split at hok
    · exact absurd hok (by simp)
    · split at hok
      · exact absurd hok (by simp)
      · split at hok
        · rename_i t ht
          split at hok
          · exact absurd hok (by simp)
          · rw [Except.ok.injEq] at hok
            rw [← hok]
        · exact absurd hok (by simp)
  refine ⟨hd, ?_⟩
  intro r0 rest c t hc hb
  rw [hd]
  obtain ⟨rid, ruid, rtitle, rcontent, remb, rcreated⟩ := r0
  simp only at hc
  subst hc
  simp [hybridRespond, hb]

/-- Witness for C10: a body supplying only `query` and `userId` validates
to `useAI = true` and the AI answer is attached. -/
theorem useAI_default_witness :
    bodyDefault.useAI = none ∧
    validateSearchInput bodyDefault =
      Except.ok { query := "hello".toList, userId := "u1".toList,
                  similarityThreshold := 0.3, useAI := true } ∧
    (hybridRespond true [rowA] (AIOutcome.ok "an answer".toList)).answer =
      some "an answer".toList := by
  have hval : validateSearchInput bodyDefault =
      Except.ok { query := "hello".toList, userId := "u1".toList,
                  similarityThreshold := 0.3, useAI := true } := by
    unfold validateSearchInput
    rw [if_neg (by decide), if_neg (by decide)]
    show (if (decide ((0.3 : ℚ) < 0) || decide ((0.3 : ℚ) > 1)) = true
        then (Except.error "Similarity threshold must be a number between 0 and 1" :
          Except String SearchQuery)
        else Except.ok (SearchQuery.mk "hello".toList "u1".toList 0.3 true)) =
      Except.ok (SearchQuery.mk "hello".toList "u1".toList 0.3 true)
    norm_num
  have h := useAI_default bodyDefault
    { query := "hello".toList, userId := "u1".toList,
      similarityThreshold := 0.3, useAI := true } rfl hval
  have h2 := h.2 rowA [] "quarterly budget discussion".toList "an answer".toList
    rfl (by decide)
  exact ⟨rfl, hval, h2.2⟩

/-! ### UTF-8 byte classification -/

set_option maxRecDepth 4000 in
theorem isContByte_iff : ∀ b : Nat, b < 256 →
    (isContByte b = true ↔ 128 ≤ b ∧ b < 192) := by decide

set_option maxRecDepth 4000 in
theorem isLead2_iff : ∀ b : Nat, b < 256 →
    (isLead2 b = true ↔ 192 ≤ b ∧ b < 224) := by decide

set_option maxRecDepth 4000 in
theorem isLead3_iff : ∀ b : Nat, b < 256 →
    (isLead3 b = true ↔ 224 ≤ b ∧ b < 240) := by decide

set_option maxRecDepth 4000 in
theorem isLead4_iff : ∀ b : Nat, b < 256 →
    (isLead4 b = true ↔ 240 ≤ b ∧ b < 248) := by decide

theorem isContByte_true_of (b : Nat) (h1 : 128 ≤ b) (h2 : b < 192) :
    isContByte b = true :=
  (isContByte_iff b (by omega)).mpr ⟨h1, h2⟩

theorem isContByte_false_of (b : Nat) (hb : b < 256) (h : b < 128 ∨ 192 ≤ b) :
    isContByte b = false := by
  cases hc : isContByte b
  · rfl
  · have := (isContByte_iff b hb).mp hc
    omega

theorem isLead2_false_of (b : Nat) (hb : b < 256) (h : b < 192 ∨ 224 ≤ b) :
    isLead2 b = false := by
  cases hc : isLead2 b
  · rfl
  · have := (isLead2_iff b hb).mp hc
    omega

theorem isLead3_false_of (b : Nat) (hb : b < 256) (h : b < 224 ∨ 240 ≤ b) :
    isLead3 b = false := by
  cases hc : isLead3 b
  · rfl
  · have := (isLead3_iff b hb).mp hc
    omega

theorem isLead4_false_of (b : Nat) (hb : b < 256) (h : b < 240 ∨ 248 ≤ b) :
    isLead4 b = false := by
  cases hc : isLead4 b
  · rfl
  · have := (isLead4_iff b hb).mp hc
    omega

/-! ### Shape of single-character encodings -/

theorem utf8EncodeChar_ascii (c : Nat) (h : c < 128) : utf8EncodeChar c = [c] := by
  simp [utf8EncodeChar, h]

theorem utf8EncodeChar_multi (c : Nat) (h1 : 128 ≤ c) (h2 : c < 1114112) :
    ∃ (lead : Nat) (conts : List Nat), utf8EncodeChar c = lead :: conts ∧
      1 ≤ conts.length ∧ conts.length ≤ 3 ∧
      (∀ b ∈ conts, isContByte b = true) ∧
      isContByte lead = false ∧
      (isLead2 lead || isLead3 lead || isLead4 lead) = true := by
  have hm64 : c % 64 < 64 := Nat.mod_lt _ (by omega)
  have hm64b : (c / 64) % 64 < 64 := Nat.mod_lt _ (by omega)
  have hm64c : (c / 4096) % 64 < 64 := Nat.mod_lt _ (by omega)
  by_cases hc2 : c < 2048
  · refine ⟨192 + c / 64, [128 + c % 64], ?_, by simp, by simp, ?_, ?_, ?_⟩
    · simp [utf8EncodeChar, hc2, show ¬ c < 128 by omega]
    · intro b hb
      rw [List.mem_singleton] at hb
      subst hb
      exact isContByte_true_of _ (by omega) (by omega)
    · exact isContByte_false_of _ (by omega) (by omega)
    · have hl : isLead2 (192 + c / 64) = true :=
        (isLead2_iff _ (by omega)).mpr ⟨by omega, by omega⟩
      rw [hl]
      rfl
  · by_cases hc3 : c < 65536
    · refine ⟨224 + c / 4096, [128 + (c / 64) % 64, 128 + c % 64], ?_, by simp, by simp,
        ?_, ?_, ?_⟩
      · simp [utf8EncodeChar, hc3, show ¬ c < 128 by omega, show ¬ c < 2048 by omega]
      · intro b hb
        rw [List.mem_cons, List.mem_singleton] at hb
        rcases hb with hb | hb
        · subst hb
          exact isContByte_true_of _ (by omega) (by omega)
        · subst hb
          exact isContByte_true_of _ (by omega) (by omega)
      · exact isContByte_false_of _ (by omega) (by omega)
      · have hl : isLead3 (224 + c / 4096) = true :=
          (isLead3_iff _ (by omega)).mpr ⟨by omega, by omega⟩
        rw [hl]
        simp
    · refine ⟨240 + c / 262144, [128 + (c / 4096) % 64, 128 + (c / 64) % 64, 128 + c % 64],
        ?_, by simp, by simp, ?_, ?_, ?_⟩
      · simp [utf8EncodeChar, show ¬ c < 128 by omega, show ¬ c < 2048 by omega,
          show ¬ c < 65536 by omega]
      · intro b hb
        rw [List.mem_cons, List.mem_cons, List.mem_singleton] at hb
        rcases hb with hb | hb | hb
        · subst hb
          exact isContByte_true_of _ (by omega) (by omega)
        · subst hb
          exact isContByte_true_of _ (by omega) (by omega)
        · subst hb
          exact isContByte_true_of _ (by omega) (by omega)
      · exact isContByte_false_of _ (by omega) (by omega)
      · have hl : isLead4 (240 + c / 262144) = true :=
          (isLead4_iff _ (by omega)).mpr ⟨by omega, by omega⟩
        rw [hl]
        simp

theorem utf8EncodeChar_length_le (c : Nat) : (utf8EncodeChar c).length ≤ 4 := by
  unfold utf8EncodeChar
  split
  · simp
  · split
    · simp
    · split
      · simp
      · simp

theorem utf8Encode_append (a b : List Nat) :
    utf8Encode (a ++ b) = utf8Encode a ++ utf8Encode b := by
  simp [utf8Encode]

theorem utf8Encode_cons (c : Nat) (t : List Nat) :
    utf8Encode (c :: t) = utf8EncodeChar c ++ utf8Encode t := rfl

theorem utf8Encode_singleton (c : Nat) : utf8Encode [c] = utf8EncodeChar c := by
  simp [utf8Encode]

/-! ### The truncation strip -/

theorem dropWhile_append_all {p : Nat → Bool} : ∀ (a b : List Nat),
    (∀ x ∈ a, p x = true) → (a ++ b).dropWhile p = b.dropWhile p := by
  intro a
  induction a with
  | nil => intro b _; rfl
  | cons x xs ih =>
      intro b h
      rw [List.cons_append]
      simp only [List.dropWhile_cons, h x (List.mem_cons_self x xs), if_pos rfl]
      exact ih b (fun y hy => h y (List.mem_cons_of_mem x hy))

/-- Stripping a partial multi-byte sequence `lead :: conts` from the end
removes exactly those bytes: the while-loop eats the continuation bytes,
the final if eats the lead byte. -/
theorem dropTrail_strip (l : List Nat) (lead : Nat) (conts : List Nat)
    (hconts : ∀ b ∈ conts, isContByte b = true)
    (hlead : isContByte lead = false)
    (hcls : (isLead2 lead || isLead3 lead || isLead4 lead) = true) :
    dropTrailLead (dropTrailCont (l ++ lead :: conts)) = l := by
  have h1 : dropTrailCont (l ++ lead :: conts) = l ++ [lead] := by
    unfold dropTrailCont
    rw [List.reverse_append, List.reverse_cons, List.append_assoc,
      dropWhile_append_all conts.reverse ([lead] ++ l.reverse)
        (fun x hx => hconts x (List.mem_reverse.mp hx))]
    simp only [List.singleton_append, List.dropWhile_cons, hlead]
    simp
  rw [h1]
  unfold dropTrailLead
  rw [List.getLast?_concat]
  show (if (isLead2 lead || isLead3 lead || isLead4 lead) = true
    then (l ++ [lead]).dropLast else l ++ [lead]) = l
  rw [if_pos hcls, List.dropLast_concat]

/-- A final byte that is neither a continuation nor a lead byte (an ASCII
byte) is kept by both stripping passes. -/
theorem dropTrail_keep (l : List Nat) (a : Nat)
    (hcont : isContByte a = false) (h2 : isLead2 a = false)
    (h3 : isLead3 a = false) (h4 : isLead4 a = false) :
    dropTrailLead (dropTrailCont (l ++ [a])) = l ++ [a] := by
  have h1 : dropTrailCont (l ++ [a]) = l ++ [a] := by
    unfold dropTrailCont
    rw [List.reverse_append]
    simp only [List.reverse_singleton, List.singleton_append, List.dropWhile_cons, hcont]
    simp
  rw [h1]
  unfold dropTrailLead
  rw [List.getLast?_concat]
  show (if (isLead2 a || isLead3 a || isLead4 a) = true
    then (l ++ [a]).dropLast else l ++ [a]) = l ++ [a]
  rw [h2, h3, h4]
  simp

/-- Taking `n` bytes of an encoded text, with `n` short of the whole, cuts
the byte stream into the encoding of a character prefix plus a proper
prefix of one further character's encoding. -/
theorem utf8Encode_take_split : ∀ (text : List Nat) (n : Nat),
    n < (utf8Encode text).length →
    ∃ (t1 : List Nat) (c : Nat) (rest : List Nat) (k : Nat),
      text = t1 ++ c :: rest ∧
      (utf8Encode t1).length + k = n ∧
      k < (utf8EncodeChar c).length ∧
      (utf8Encode text).take n = utf8Encode t1 ++ (utf8EncodeChar c).take k := by
  intro text
  induction text with
  | nil =>
      intro n hn
      simp [utf8Encode] at hn
  | cons c cs ih =>
      intro n hn
      rw [utf8Encode_cons] at hn ⊢
      by_cases hsm : n < (utf8EncodeChar c).length
      · refine ⟨[], c, cs, n, rfl, by simp [utf8Encode], hsm, ?_⟩
        rw [List.take_append_of_le_length (le_of_lt hsm)]
        simp [utf8Encode]
      · push_neg at hsm
        rw [List.length_append] at hn
        have hn2 : n - (utf8EncodeChar c).length < (utf8Encode cs).length := by omega
        obtain ⟨t1, c1, rest, k, he, hlen, hk, htake⟩ := ih (n - (utf8EncodeChar c).length) hn2
        refine ⟨c :: t1, c1, rest, k, by rw [he, List.cons_append], ?_, hk, ?_⟩
        · rw [utf8Encode_cons, List.length_append]
          omega
        · rw [List.take_append_eq_append_take, List.take_of_length_le hsm, htake,
            utf8Encode_cons, List.append_assoc]

/-- General truncation specification: for any byte budget `n` shorter than
the whole encoding, the truncated bytes are well-formed UTF-8 and at most
4 bytes below the budget. -/
theorem truncateTextBytes_spec (text : List Nat) (hval : ∀ c ∈ text, ScalarValue c)
    (n : Nat) (hn : n < (utf8Encode text).length) :
    Utf8WellFormed (truncateTextBytes text n) ∧
    n - 4 ≤ (truncateTextBytes text n).length := by
  unfold truncateTextBytes
  rw [if_neg (by omega)]
  obtain ⟨t1, c, rest, k, htext, hlen, hk, htake⟩ := utf8Encode_take_split text n hn
  rw [htake]
  have hsc1 : ∀ x ∈ t1, ScalarValue x := fun x hx =>
    hval x (htext ▸ List.mem_append_left _ hx)
  have hscc : ScalarValue c :=
    hval c (htext ▸ List.mem_append_right _ (List.mem_cons_self _ _))
  by_cases hk0 : k = 0
  · subst hk0
    simp only [List.take_zero, List.append_nil]
    rcases List.eq_nil_or_concat t1 with h0 | ⟨t1f, a, hcat⟩
    · subst h0
      refine ⟨⟨[], by simp, rfl⟩, ?_⟩
      simp [utf8Encode] at hlen ⊢
      omega
    · rw [List.concat_eq_append] at hcat
      subst hcat
      have ha : ScalarValue a := hsc1 a (List.mem_append_right _ (List.mem_singleton.mpr rfl))
      have henc : utf8Encode (t1f ++ [a]) = utf8Encode t1f ++ utf8EncodeChar a := by
        rw [utf8Encode_append, utf8Encode_singleton]
      rw [henc]
      by_cases haa : a < 128
      · rw [utf8EncodeChar_ascii a haa,
          dropTrail_keep _ _ (isContByte_false_of a (by omega) (by omega))
            (isLead2_false_of a (by omega) (by omega))
            (isLead3_false_of a (by omega) (by omega))
            (isLead4_false_of a (by omega) (by omega))]
        refine ⟨⟨t1f ++ [a], hsc1, ?_⟩, ?_⟩
        · rw [henc, utf8EncodeChar_ascii a haa]
        · have : (utf8Encode t1f ++ [a]).length = n := by
            rw [← utf8EncodeChar_ascii a haa, ← henc]
            omega
          omega
      · obtain ⟨lead, conts, hEnc, hlc1, hlc3, hcAll, hcLead, hcls⟩ :=
          utf8EncodeChar_multi a (by omega) ha.1
        rw [hEnc, dropTrail_strip _ _ _ hcAll hcLead hcls]
        refine ⟨⟨t1f, fun x hx => hsc1 x (List.mem_append_left _ hx), rfl⟩, ?_⟩
        have hlenc : (utf8EncodeChar a).length ≤ 4 := utf8EncodeChar_length_le a
        have hla : (utf8Encode (t1f ++ [a])).length =
            (utf8Encode t1f).length + (utf8EncodeChar a).length := by
          rw [henc, List.length_append]
        omega
  · have hcm : 128 ≤ c := by
      by_contra hlt
      push_neg at hlt
      rw [utf8EncodeChar_ascii c hlt] at hk
      simp at hk
      omega
    obtain ⟨lead, conts, hEnc, hlc1, hlc3, hcAll, hcLead, hcls⟩ :=
      utf8EncodeChar_multi c hcm hscc.1
    rw [hEnc]
    have htk : (lead :: conts).take k = lead :: conts.take (k - 1) := by
      cases k with
      | zero => omega
      | succ k2 =>
          rw [List.take_succ_cons]
          norm_num
    rw [htk, dropTrail_strip _ _ _
      (fun b hb => hcAll b (List.mem_of_mem_take hb)) hcLead hcls]
    refine ⟨⟨t1, hsc1, rfl⟩, ?_⟩
    have hk4 : k ≤ 3 := by
      rw [hEnc] at hk
      simp only [List.length_cons] at hk
      omega
    omega

/-- Claim C8: truncation safety — for every text whose UTF-8 encoding
exceeds the 9000-byte budget used by `generateEmbedding`, the bytes
produced by `truncateText` are well-formed UTF-8 (the final
`TextDecoder` step never hits a decoding error, no multi-byte character is
split) and at least `budget − 4` bytes long (at most one maximal-width
codepoint is dropped). -/
theorem truncation_safety :
    ∀ text : List Nat, (∀ c ∈ text, ScalarValue c) →
      embeddingByteBudget < (utf8Encode text).length →
      Utf8WellFormed (truncateTextBytes text embeddingByteBudget) ∧
      embeddingByteBudget - 4 ≤ (truncateTextBytes text embeddingByteBudget).length := by
  intro text hval hlen
  exact truncateTextBytes_spec text hval embeddingByteBudget hlen

/-- Helper: the encoding of a run of ASCII `a` characters is the run
itself. -/
theorem utf8Encode_replicate_97 : ∀ n : Nat,
    utf8Encode (List.replicate n 97) = List.replicate n 97 := by
  intro n
  induction n with
  | zero => rfl
  | succ n ih =>
      rw [List.replicate_succ, utf8Encode_cons, ih, utf8EncodeChar_ascii 97 (by omega)]
      rfl

/-- Witness for C8: a 9001-byte ASCII text exceeds the budget and the
theorem applies to it. -/
theorem truncation_safety_witness :
    (∀ c ∈ List.replicate 9001 97, ScalarValue c) ∧
    embeddingByteBudget < (utf8Encode (List.replicate 9001 97)).length ∧
    Utf8WellFormed (truncateTextBytes (List.replicate 9001 97) embeddingByteBudget) ∧
    embeddingByteBudget - 4 ≤
      (truncateTextBytes (List.replicate 9001 97) embeddingByteBudget).length := by
  have hval : ∀ c ∈ List.replicate 9001 97, ScalarValue c := by
    intro c hc
    rw [List.mem_replicate] at hc
    rw [hc.2]
    exact ⟨by norm_num, by omega⟩
  have hlen : embeddingByteBudget < (utf8Encode (List.replicate 9001 97)).length := by
    rw [utf8Encode_replicate_97, List.length_replicate]
    norm_num [embeddingByteBudget]
  have h := truncation_safety (List.replicate 9001 97) hval hlen
  exact ⟨hval, hlen, h.1, h.2⟩

end Brainion
